import Mathlib

/-!
Shallow embedding of the `ThreadPool` implementation (`src/pool.cc`,
together with its header declaring `Task`, `TaskInfo` and `ThreadPool`).

Modelling choices:
* A `Task*` payload is identified by a `TaskId` (a `Nat`); `delete` of a
  payload and execution of its `Run()` method are recorded as `Event`s
  emitted by each operation, so claims about "released", "never run",
  "no leak" become statements about the event list.
* `Task::Run()` may throw; the behaviour of the payloads is a parameter
  `runs : TaskId → RunOutcome` (`ok` or `fault`), mirroring the design
  note that task execution is a success-or-failure result swallowed by
  the worker.
* The single mutex means every lock-protected region is one atomic step
  on `PoolState`.  The worker loop body (`ThreadPool::WorkerLoop`, one
  iteration) is `WorkerStep`; the condition-variable wait appears as the
  `idle` view (queue empty, not stopping: the worker stays blocked).
* `std::unordered_map<std::string, std::shared_ptr<TaskInfo>> tasks_` is
  an association list `List (String × TaskInfo)`; the `shared_ptr`
  aliasing between a worker and the registry is modelled by updating the
  registry entry in place (sound because an unfinished record is never
  erased, so the worker's pointer and the registry entry coincide).
* `WaitForTask`'s `cv.wait(lk, finished)` is modelled by its predicate:
  if the record is already finished the call reclaims it, otherwise the
  call reports `blocked` (the suspension; the caller re-enters after the
  worker flips `finished`).
* `Stop`'s join of the workers is `drainQueue`: the workers dequeue and
  run every remaining item and then exit (`liveWorkers := 0`).
-/

/-- Outcome of one `Task::Run()` call: normal return, or a thrown
exception (caught by `catch (...)`, so it carries no data). -/
inductive RunOutcome where
  | ok : RunOutcome
  | fault : RunOutcome
deriving Repr, DecidableEq

/-- A task payload (`Task*`) is identified by an id. -/
abbrev TaskId := Nat

/-- Observable side effects of a pool operation on task payloads. -/
inductive Event where
  | executed : TaskId → RunOutcome → Event
  | released : TaskId → Event
deriving Repr, DecidableEq

/-- Is this event a `delete` of a payload? -/
def Event.isReleased : Event → Bool
  | .released _ => true
  | _ => false

/-- `ThreadPool::TaskInfo` (pool.h): per-task record. -/
structure TaskInfo where
  task : TaskId
  started : Bool
  finished : Bool
  waited : Bool
deriving Repr, DecidableEq

/-- A fresh record as built by `SubmitTask` (`std::make_shared<TaskInfo>()`
with the default member initializers, then `info->task = task`). -/
def TaskInfo.mkNew (t : TaskId) : TaskInfo :=
  { task := t, started := false, finished := false, waited := false }

/-- `tasks_.find(name)` on the association-list registry. -/
def lookupTask : List (String × TaskInfo) → String → Option TaskInfo
  | [], _ => none
  | (k, v) :: rest, name => if k = name then some v else lookupTask rest name

/-- Mutation through the shared `TaskInfo` pointer: rewrite the (first)
entry registered under `name`. -/
def updateTask : List (String × TaskInfo) → String → (TaskInfo → TaskInfo) →
    List (String × TaskInfo)
  | [], _, _ => []
  | (k, v) :: rest, name, f =>
    if k = name then (k, f v) :: rest else (k, v) :: updateTask rest name f

/-- `tasks_.erase(it)`: remove the entry registered under `name`. -/
def eraseTask : List (String × TaskInfo) → String → List (String × TaskInfo)
  | [], _ => []
  | (k, v) :: rest, name => if k = name then rest else (k, v) :: eraseTask rest name

/-- The lock-protected state of one `ThreadPool`, plus the number of
worker threads that have not yet exited their loop. -/
structure PoolState where
  stopping : Bool
  queue : List String
  tasks : List (String × TaskInfo)
  liveWorkers : Nat
deriving Repr, DecidableEq

/-- The error conditions the pool reports synchronously (as C++
exceptions thrown to the caller). -/
inductive PoolError where
  | invalidConfiguration : PoolError
  | nullTask : PoolError
  | duplicateTaskName : PoolError
  | unknownTaskName : PoolError
deriving Repr, DecidableEq

namespace ThreadPool

/-- `ThreadPool::ThreadPool(int num_threads)`: reject `num_threads <= 0`
(`std::invalid_argument`), otherwise start `num_threads` worker loops on
an empty queue and empty registry. -/
def construct (numThreads : Int) : Except PoolError PoolState :=
  if numThreads ≤ 0 then
    .error .invalidConfiguration
  else
    .ok { stopping := false, queue := [], tasks := [], liveWorkers := numThreads.toNat }

/-- `ThreadPool::SubmitTask(name, task)`.  `none` models a null `Task*`.
Returns the new state, the call's result, and the payload events. -/
def SubmitTask (p : PoolState) (name : String) (task : Option TaskId) :
    PoolState × Except PoolError Unit × List Event :=
  match task with
  | none => (p, .error .nullTask, [])
  | some t =>
    if p.stopping then
      (p, .ok (), [])
    else if (lookupTask p.tasks name).isSome then
      (p, .error .duplicateTaskName, [.released t])
    else
      ({ p with tasks := (name, TaskInfo.mkNew t) :: p.tasks,
                queue := p.queue ++ [name] },
       .ok (), [])

/-- Result of a `WaitForTask` call that did find the record: either the
condition wait suspends (record not yet finished), or the record is
reclaimed. -/
inductive WaitStatus where
  | blocked : WaitStatus
  | reclaimed : WaitStatus
deriving Repr, DecidableEq

/-- `ThreadPool::WaitForTask(name)`.  The unknown name throws; otherwise
`waited` is set and `cv.wait(lk, finished)` either suspends (`blocked`)
or returns at once, after which the record is erased and the payload
deleted. -/
def WaitForTask (p : PoolState) (name : String) :
    PoolState × Except PoolError WaitStatus × List Event :=
  match lookupTask p.tasks name with
  | none => (p, .error .unknownTaskName, [])
  | some info =>
    let p1 : PoolState :=
      { p with tasks := updateTask p.tasks name (fun i => { i with waited := true }) }
    if info.finished then
      ({ p1 with tasks := eraseTask p1.tasks name },
       .ok .reclaimed, [.released info.task])
    else
      (p1, .ok .blocked, [])

/-- What one iteration of `ThreadPool::WorkerLoop` did. -/
inductive WorkerView where
  | idle : WorkerView
  | exited : WorkerView
  | ran : String → TaskId → WorkerView
  | stuck : WorkerView
deriving Repr, DecidableEq

/-- One iteration of `ThreadPool::WorkerLoop`, for a worker that has just
woken inside `cv_queue_.wait`.  `idle`: the wait predicate is false and
the worker stays blocked.  `exited`: `stopping_ && queue_.empty()`, the
loop breaks.  `stuck`: the dequeued name has no registry entry, so
`tasks_[name]` would default-insert a null `shared_ptr` and
`info->started` would dereference null (undefined behaviour; proved
unreachable).  Otherwise the worker dequeues the front name, marks it
started, runs the payload outside the lock swallowing any exception, and
marks it finished. -/
def WorkerStep (runs : TaskId → RunOutcome) (p : PoolState) :
    PoolState × WorkerView × List Event :=
  match p.queue with
  | [] =>
    if p.stopping then
      ({ p with liveWorkers := p.liveWorkers - 1 }, .exited, [])
    else
      (p, .idle, [])
  | name :: rest =>
    match lookupTask p.tasks name with
    | none => (p, .stuck, [])
    | some info =>
      ({ p with queue := rest,
                tasks := updateTask
                  (updateTask p.tasks name (fun i => { i with started := true }))
                  name (fun i => { i with finished := true }) },
       .ran name info.task,
       [.executed info.task (runs info.task)])

/-- Recursion of `drainQueue` over the pending names: returns the final
registry, the names left undrained (nonempty only on the
undefined-behaviour path, where a dequeued name has no registry entry —
see `WorkerStep`; the model stops draining there), and the events. -/
def drainQueueGo (runs : TaskId → RunOutcome) :
    List String → List (String × TaskInfo) →
      List (String × TaskInfo) × List String × List Event
  | [], tasks => (tasks, [], [])
  | name :: rest, tasks =>
    match lookupTask tasks name with
    | none => (tasks, name :: rest, [])
    | some info =>
      let tasks2 := updateTask
        (updateTask tasks name (fun i => { i with started := true }))
        name (fun i => { i with finished := true })
      let r := drainQueueGo runs rest tasks2
      (r.1, r.2.1, Event.executed info.task (runs info.task) :: r.2.2)

/-- The joint effect of the workers between `stopping_ = true` and the
last `t.join()` returning: repeatedly dequeue, run and finish the front
item until the queue is empty (each worker then breaks out of its
loop). -/
def drainQueue (runs : TaskId → RunOutcome) (p : PoolState) : PoolState × List Event :=
  let r := drainQueueGo runs p.queue p.tasks
  ({ p with tasks := r.1, queue := r.2.1 }, r.2.2)

/-- `ThreadPool::Stop()`: return at once if already stopping; otherwise
set the flag, wake everyone, and join all workers (they drain the queue
and exit). -/
def Stop (runs : TaskId → RunOutcome) (p : PoolState) : PoolState × List Event :=
  if p.stopping then
    (p, [])
  else
    let r := drainQueue runs { p with stopping := true }
    ({ r.1 with liveWorkers := 0 }, r.2)

/-- `ThreadPool::~ThreadPool()`: invoke `Stop` if not already stopping,
then delete every payload still in the registry and clear it. -/
def Destroy (runs : TaskId → RunOutcome) (p : PoolState) : PoolState × List Event :=
  let r := if p.stopping then (p, ([] : List Event)) else Stop runs p
  ({ r.1 with tasks := [] },
   r.2 ++ r.1.tasks.map (fun kv => Event.released kv.2.task))

/-- Does the registry hold an unfinished record for `name`?  (Bool-valued
so the invariant below is decidable.) -/
def queuedLiveB (tasks : List (String × TaskInfo)) (name : String) : Bool :=
  match lookupTask tasks name with
  | some info => !info.finished
  | none => false

/-- The pool's structural invariant: registry keys are distinct (it is a
map), queued names are distinct, and every queued name is registered
with `finished = false`. -/
def Inv (p : PoolState) : Prop :=
  (p.tasks.map Prod.fst).Nodup ∧ p.queue.Nodup ∧
    ∀ name ∈ p.queue, queuedLiveB p.tasks name = true

instance (p : PoolState) : Decidable (Inv p) := by
  unfold Inv; infer_instance

end ThreadPool

/-! ### Registry (association list) lemmas -/

theorem lookupTask_isSome_iff (l : List (String × TaskInfo)) (name : String) :
    (lookupTask l name).isSome ↔ name ∈ l.map Prod.fst := by
  induction l with
  | nil => simp [lookupTask]
  | cons kv rest ih =>
    obtain ⟨k, v⟩ := kv
    by_cases h : k = name
    · subst h; simp [lookupTask]
    · simp [lookupTask, h, ih, Ne.symm h]

theorem lookupTask_eq_none_of_not_mem (l : List (String × TaskInfo)) (name : String)
    (h : name ∉ l.map Prod.fst) : lookupTask l name = none := by
  have := (lookupTask_isSome_iff l name).not.mpr h
  cases hl : lookupTask l name with
  | none => rfl
  | some v => rw [hl] at this; simp at this

theorem lookupTask_updateTask_self (l : List (String × TaskInfo)) (name : String)
    (f : TaskInfo → TaskInfo) :
    lookupTask (updateTask l name f) name = (lookupTask l name).map f := by
  induction l with
  | nil => simp [lookupTask, updateTask]
  | cons kv rest ih =>
    obtain ⟨k, v⟩ := kv
    by_cases h : k = name <;> simp [lookupTask, updateTask, h, ih]

theorem lookupTask_updateTask_ne (l : List (String × TaskInfo)) (name name' : String)
    (f : TaskInfo → TaskInfo) (hne : name' ≠ name) :
    lookupTask (updateTask l name f) name' = lookupTask l name' := by
  induction l with
  | nil => simp [updateTask]
  | cons kv rest ih =>
    obtain ⟨k, v⟩ := kv
    by_cases h1 : k = name
    · simp [updateTask, lookupTask, h1, Ne.symm hne]
    · by_cases h2 : k = name' <;> simp [updateTask, lookupTask, h1, h2, ih, hne]

theorem keys_updateTask (l : List (String × TaskInfo)) (name : String)
    (f : TaskInfo → TaskInfo) :
    (updateTask l name f).map Prod.fst = l.map Prod.fst := by
  induction l with
  | nil => rfl
  | cons kv rest ih =>
    obtain ⟨k, v⟩ := kv
    by_cases h : k = name <;> simp [updateTask, h, ih]

theorem lookupTask_eraseTask_ne (l : List (String × TaskInfo)) (name name' : String)
    (hne : name' ≠ name) :
    lookupTask (eraseTask l name) name' = lookupTask l name' := by
  induction l with
  | nil => simp [eraseTask]
  | cons kv rest ih =>
    obtain ⟨k, v⟩ := kv
    by_cases h1 : k = name
    · simp [eraseTask, lookupTask, h1, Ne.symm hne]
    · by_cases h2 : k = name' <;> simp [eraseTask, lookupTask, h1, h2, ih, hne]

theorem lookupTask_eraseTask_self (l : List (String × TaskInfo)) (name : String)
    (hnd : (l.map Prod.fst).Nodup) :
    lookupTask (eraseTask l name) name = none := by
  induction l with
  | nil => simp [eraseTask, lookupTask]
  | cons kv rest ih =>
    obtain ⟨k, v⟩ := kv
    simp only [List.map_cons, List.nodup_cons] at hnd
    by_cases h1 : k = name
    · subst h1
      simp only [eraseTask, if_pos rfl]
      exact lookupTask_eq_none_of_not_mem rest k hnd.1
    · simp [eraseTask, lookupTask, h1, ih hnd.2]

theorem keys_eraseTask_sublist (l : List (String × TaskInfo)) (name : String) :
    ((eraseTask l name).map Prod.fst).Sublist (l.map Prod.fst) := by
  induction l with
  | nil => simp [eraseTask]
  | cons kv rest ih =>
    obtain ⟨k, v⟩ := kv
    by_cases h : k = name
    · simp only [eraseTask, if_pos h, List.map_cons]
      exact List.sublist_cons_self _ _
    · simp only [eraseTask, if_neg h, List.map_cons]
      exact ih.cons₂ k

/-! ### Branch equations for the operations -/

namespace ThreadPool

theorem queuedLiveB_true_iff (tasks : List (String × TaskInfo)) (name : String) :
    queuedLiveB tasks name = true ↔
      ∃ info, lookupTask tasks name = some info ∧ info.finished = false := by
  unfold queuedLiveB
  cases h : lookupTask tasks name with
  | none => simp
  | some info => simp [h]

theorem queuedLiveB_congr {t1 t2 : List (String × TaskInfo)} (name : String)
    (h : lookupTask t1 name = lookupTask t2 name) :
    queuedLiveB t1 name = queuedLiveB t2 name := by
  unfold queuedLiveB; rw [h]

theorem SubmitTask_none (p : PoolState) (name : String) :
    SubmitTask p name none = (p, .error .nullTask, []) := rfl

theorem SubmitTask_stopping (p : PoolState) (name : String) (t : TaskId)
    (hs : p.stopping = true) :
    SubmitTask p name (some t) = (p, .ok (), []) := by
  unfold SubmitTask; simp [hs]

theorem SubmitTask_dup (p : PoolState) (name : String) (t : TaskId)
    (hs : p.stopping = false) (hdup : (lookupTask p.tasks name).isSome) :
    SubmitTask p name (some t) = (p, .error .duplicateTaskName, [.released t]) := by
  unfold SubmitTask; simp [hs, hdup]

theorem SubmitTask_fresh (p : PoolState) (name : String) (t : TaskId)
    (hs : p.stopping = false) (hdup : lookupTask p.tasks name = none) :
    SubmitTask p name (some t) =
      ({ p with tasks := (name, TaskInfo.mkNew t) :: p.tasks,
                queue := p.queue ++ [name] },
       .ok (), []) := by
  unfold SubmitTask; simp [hs, hdup]

theorem WaitForTask_unknown (p : PoolState) (name : String)
    (hl : lookupTask p.tasks name = none) :
    WaitForTask p name = (p, .error .unknownTaskName, []) := by
  unfold WaitForTask; rw [hl]

theorem WaitForTask_reclaim (p : PoolState) (name : String) (info : TaskInfo)
    (hl : lookupTask p.tasks name = some info) (hf : info.finished = true) :
    WaitForTask p name =
      ({ p with tasks :=
          eraseTask (updateTask p.tasks name (fun i => { i with waited := true })) name },
       .ok .reclaimed, [.released info.task]) := by
  unfold WaitForTask; rw [hl]; simp [hf]

theorem WaitForTask_blocked (p : PoolState) (name : String) (info : TaskInfo)
    (hl : lookupTask p.tasks name = some info) (hf : info.finished = false) :
    WaitForTask p name =
      ({ p with tasks := updateTask p.tasks name (fun i => { i with waited := true }) },
       .ok .blocked, []) := by
  unfold WaitForTask; rw [hl]; simp [hf]

theorem WorkerStep_exit (runs : TaskId → RunOutcome) (p : PoolState)
    (hq : p.queue = []) (hs : p.stopping = true) :
    WorkerStep runs p = ({ p with liveWorkers := p.liveWorkers - 1 }, .exited, []) := by
  unfold WorkerStep; rw [hq]; simp [hs]

theorem WorkerStep_idle (runs : TaskId → RunOutcome) (p : PoolState)
    (hq : p.queue = []) (hs : p.stopping = false) :
    WorkerStep runs p = (p, .idle, []) := by
  unfold WorkerStep; rw [hq]; simp [hs]

theorem WorkerStep_stuck_eq (runs : TaskId → RunOutcome) (p : PoolState)
    (name : String) (rest : List String) (hq : p.queue = name :: rest)
    (hl : lookupTask p.tasks name = none) :
    WorkerStep runs p = (p, .stuck, []) := by
  unfold WorkerStep; rw [hq]; simp [hl]

theorem WorkerStep_ran (runs : TaskId → RunOutcome) (p : PoolState)
    (name : String) (rest : List String) (info : TaskInfo)
    (hq : p.queue = name :: rest) (hl : lookupTask p.tasks name = some info) :
    WorkerStep runs p =
      ({ p with queue := rest,
                tasks := updateTask
                  (updateTask p.tasks name (fun i => { i with started := true }))
                  name (fun i => { i with finished := true }) },
       .ran name info.task, [.executed info.task (runs info.task)]) := by
  unfold WorkerStep; rw [hq]; simp [hl]

end ThreadPool

/-! ### Preservation of the structural invariant -/

namespace ThreadPool

theorem Inv_construct (n : Int) (p : PoolState) (h : construct n = .ok p) : Inv p := by
  unfold construct at h
  split at h
  · exact absurd h (by simp)
  · injection h with h
    subst h
    exact ⟨List.nodup_nil, List.nodup_nil, by intro x hx; cases hx⟩

theorem Inv_SubmitTask (p : PoolState) (name : String) (task : Option TaskId)
    (h : Inv p) : Inv (SubmitTask p name task).1 := by
  obtain ⟨hkeys, hqnd, hlive⟩ := h
  cases task with
  | none => exact ⟨hkeys, hqnd, hlive⟩
  | some t =>
    cases hs : p.stopping with
    | true =>
      rw [SubmitTask_stopping p name t hs]
      exact ⟨hkeys, hqnd, hlive⟩
    | false =>
      cases hl : lookupTask p.tasks name with
      | some info =>
        rw [SubmitTask_dup p name t hs (by simp [hl])]
        exact ⟨hkeys, hqnd, hlive⟩
      | none =>
        rw [SubmitTask_fresh p name t hs hl]
        have hnotmem : name ∉ p.tasks.map Prod.fst := by
          intro hm
          have := (lookupTask_isSome_iff p.tasks name).mpr hm
          rw [hl] at this
          simp at this
        have hnotq : name ∉ p.queue := by
          intro hm
          obtain ⟨info, hli, _⟩ := (queuedLiveB_true_iff p.tasks name).mp (hlive name hm)
          rw [hl] at hli
          cases hli
        refine ⟨?_, ?_, ?_⟩
        · exact List.nodup_cons.mpr ⟨hnotmem, hkeys⟩
        · exact List.Nodup.append hqnd (List.nodup_singleton name)
            (by intro a ha hb; rw [List.mem_singleton] at hb; subst hb; exact hnotq ha)
        · intro n hn
          rcases List.mem_append.mp hn with hn | hn
          · have hne : name ≠ n := fun e => hnotq (e ▸ hn)
            have heq : lookupTask ((name, TaskInfo.mkNew t) :: p.tasks) n
                = lookupTask p.tasks n := by
              simp [lookupTask, hne]
            rw [queuedLiveB_congr n heq]
            exact hlive n hn
          · rw [List.mem_singleton] at hn
            subst hn
            rw [queuedLiveB_true_iff]
            exact ⟨TaskInfo.mkNew t, by simp [lookupTask], rfl⟩

theorem Inv_WaitForTask (p : PoolState) (name : String) (h : Inv p) :
    Inv (WaitForTask p name).1 := by
  obtain ⟨hkeys, hqnd, hlive⟩ := h
  cases hl : lookupTask p.tasks name with
  | none =>
    rw [WaitForTask_unknown p name hl]
    exact ⟨hkeys, hqnd, hlive⟩
  | some info =>
    cases hf : info.finished with
    | true =>
      rw [WaitForTask_reclaim p name info hl hf]
      have hnotq : name ∉ p.queue := by
        intro hm
        obtain ⟨info', hli, hfin⟩ := (queuedLiveB_true_iff p.tasks name).mp (hlive name hm)
        rw [hl] at hli
        injection hli with hli
        subst hli
        rw [hf] at hfin
        cases hfin
      refine ⟨?_, hqnd, ?_⟩
      · have hsub := keys_eraseTask_sublist
          (updateTask p.tasks name (fun i => { i with waited := true })) name
        rw [keys_updateTask] at hsub
        exact List.Nodup.sublist hsub hkeys
      · intro n hn
        have hne : n ≠ name := fun e => hnotq (e ▸ hn)
        have heq : lookupTask (eraseTask
            (updateTask p.tasks name (fun i => { i with waited := true })) name) n
            = lookupTask p.tasks n := by
          rw [lookupTask_eraseTask_ne _ _ _ hne,
            lookupTask_updateTask_ne _ _ _ _ hne]
        rw [queuedLiveB_congr n heq]
        exact hlive n hn
    | false =>
      rw [WaitForTask_blocked p name info hl hf]
      refine ⟨?_, hqnd, ?_⟩
      · dsimp only
        rw [keys_updateTask]
        exact hkeys
      · intro n hn
        dsimp only at hn ⊢
        by_cases hne : n = name
        · subst hne
          rw [queuedLiveB_true_iff]
          refine ⟨{ info with waited := true }, ?_, hf⟩
          rw [lookupTask_updateTask_self, hl]
          rfl
        · have heq := lookupTask_updateTask_ne p.tasks name n
            (fun i => { i with waited := true }) hne
          rw [queuedLiveB_congr n heq]
          exact hlive n hn

theorem Inv_runFront (p : PoolState) (name : String) (rest : List String)
    (hq : p.queue = name :: rest) (h : Inv p) :
    Inv { p with queue := rest,
                 tasks := updateTask
                   (updateTask p.tasks name (fun i => { i with started := true }))
                   name (fun i => { i with finished := true }) } := by
  obtain ⟨hkeys, hqnd, hlive⟩ := h
  rw [hq] at hqnd hlive
  have hqc := List.nodup_cons.mp hqnd
  refine ⟨?_, hqc.2, ?_⟩
  · dsimp only
    rw [keys_updateTask, keys_updateTask]
    exact hkeys
  · intro n hn
    dsimp only at hn ⊢
    have hne : n ≠ name := fun e => hqc.1 (e ▸ hn)
    have heq : lookupTask (updateTask
        (updateTask p.tasks name (fun i => { i with started := true }))
        name (fun i => { i with finished := true })) n = lookupTask p.tasks n := by
      rw [lookupTask_updateTask_ne _ _ _ _ hne, lookupTask_updateTask_ne _ _ _ _ hne]
    rw [queuedLiveB_congr n heq]
    exact hlive n (List.mem_cons_of_mem _ hn)

theorem Inv_WorkerStep (runs : TaskId → RunOutcome) (p : PoolState) (h : Inv p) :
    Inv (WorkerStep runs p).1 := by
  cases hq : p.queue with
  | nil =>
    cases hs : p.stopping with
    | true =>
      rw [WorkerStep_exit runs p hq hs]
      exact h
    | false =>
      rw [WorkerStep_idle runs p hq hs]
      exact h
  | cons name rest =>
    cases hl : lookupTask p.tasks name with
    | none =>
      rw [WorkerStep_stuck_eq runs p name rest hq hl]
      exact h
    | some info =>
      rw [WorkerStep_ran runs p name rest info hq hl]
      exact Inv_runFront p name rest hq h

theorem WorkerStep_not_stuck (runs : TaskId → RunOutcome) (p : PoolState) (h : Inv p) :
    (WorkerStep runs p).2.1 ≠ .stuck := by
  obtain ⟨hkeys, hqnd, hlive⟩ := h
  cases hq : p.queue with
  | nil =>
    cases hs : p.stopping with
    | true => rw [WorkerStep_exit runs p hq hs]; simp
    | false => rw [WorkerStep_idle runs p hq hs]; simp
  | cons name rest =>
    have hmem : name ∈ p.queue := by rw [hq]; exact List.mem_cons_self _ _
    obtain ⟨info, hl, _⟩ := (queuedLiveB_true_iff p.tasks name).mp (hlive name hmem)
    rw [WorkerStep_ran runs p name rest info hq hl]
    simp

end ThreadPool

/-! ### Draining the queue, `Stop`, destruction -/

namespace ThreadPool

theorem drainQueueGo_keys (runs : TaskId → RunOutcome) (names : List String) :
    ∀ tasks : List (String × TaskInfo),
      ((drainQueueGo runs names tasks).1).map Prod.fst = tasks.map Prod.fst := by
  induction names with
  | nil => intro tasks; rfl
  | cons name rest ih =>
    intro tasks
    unfold drainQueueGo
    cases hl : lookupTask tasks name with
    | none => rfl
    | some info =>
      dsimp only
      rw [ih, keys_updateTask, keys_updateTask]

theorem drainQueueGo_no_released (runs : TaskId → RunOutcome) (names : List String) :
    ∀ (tasks : List (String × TaskInfo)) (e : Event),
      e ∈ (drainQueueGo runs names tasks).2.2 → e.isReleased = false := by
  induction names with
  | nil => intro tasks e he; cases he
  | cons name rest ih =>
    intro tasks e
    unfold drainQueueGo
    cases hl : lookupTask tasks name with
    | none => intro he; cases he
    | some info =>
      dsimp only
      intro he
      rcases List.mem_cons.mp he with he | he
      · subst he; rfl
      · exact ih _ e he

theorem drainQueueGo_runs_indep (runs1 runs2 : TaskId → RunOutcome)
    (names : List String) :
    ∀ tasks : List (String × TaskInfo),
      (drainQueueGo runs1 names tasks).1 = (drainQueueGo runs2 names tasks).1 ∧
      (drainQueueGo runs1 names tasks).2.1 = (drainQueueGo runs2 names tasks).2.1 := by
  induction names with
  | nil => intro tasks; exact ⟨rfl, rfl⟩
  | cons name rest ih =>
    intro tasks
    unfold drainQueueGo
    cases hl : lookupTask tasks name with
    | none => exact ⟨rfl, rfl⟩
    | some info =>
      dsimp only
      exact ih _

theorem drainQueueGo_drains (runs : TaskId → RunOutcome) (names : List String) :
    ∀ tasks : List (String × TaskInfo), names.Nodup →
      (∀ n ∈ names, queuedLiveB tasks n = true) →
      (drainQueueGo runs names tasks).2.1 = [] ∧
      ∀ n info, n ∈ names → lookupTask tasks n = some info →
        Event.executed info.task (runs info.task) ∈ (drainQueueGo runs names tasks).2.2 := by
  induction names with
  | nil =>
    intro tasks _ _
    exact ⟨rfl, by intro n info hn; cases hn⟩
  | cons name rest ih =>
    intro tasks hnd hlive
    obtain ⟨hnotin, hndr⟩ := List.nodup_cons.mp hnd
    obtain ⟨info0, hl0, _⟩ := (queuedLiveB_true_iff tasks name).mp
      (hlive name (List.mem_cons_self _ _))
    unfold drainQueueGo
    rw [hl0]
    dsimp only
    have heq2 : ∀ n, n ≠ name →
        lookupTask (updateTask
          (updateTask tasks name (fun i => { i with started := true }))
          name (fun i => { i with finished := true })) n = lookupTask tasks n := by
      intro n hne
      rw [lookupTask_updateTask_ne _ _ _ _ hne, lookupTask_updateTask_ne _ _ _ _ hne]
    have hlive2 : ∀ n ∈ rest, queuedLiveB (updateTask
        (updateTask tasks name (fun i => { i with started := true }))
        name (fun i => { i with finished := true })) n = true := by
      intro n hn
      have hne : n ≠ name := fun e => hnotin (e ▸ hn)
      rw [queuedLiveB_congr n (heq2 n hne)]
      exact hlive n (List.mem_cons_of_mem _ hn)
    obtain ⟨hdrained, hmem⟩ := ih _ hndr hlive2
    refine ⟨hdrained, ?_⟩
    intro n info hn hl
    rcases List.mem_cons.mp hn with hn | hn
    · subst hn
      rw [hl0] at hl
      injection hl with hl
      subst hl
      exact List.mem_cons_self _ _
    · have hne : n ≠ name := fun e => hnotin (e ▸ hn)
      exact List.mem_cons_of_mem _ (hmem n info hn ((heq2 n hne).trans hl))

theorem drainQueue_stopping (runs : TaskId → RunOutcome) (p : PoolState) :
    (drainQueue runs p).1.stopping = p.stopping := rfl

theorem drainQueue_liveWorkers (runs : TaskId → RunOutcome) (p : PoolState) :
    (drainQueue runs p).1.liveWorkers = p.liveWorkers := rfl

theorem drainQueue_keys (runs : TaskId → RunOutcome) (p : PoolState) :
    (drainQueue runs p).1.tasks.map Prod.fst = p.tasks.map Prod.fst :=
  drainQueueGo_keys runs p.queue p.tasks

theorem drainQueue_drains (runs : TaskId → RunOutcome) (p : PoolState) (h : Inv p) :
    (drainQueue runs p).1.queue = [] ∧
    ∀ n info, n ∈ p.queue → lookupTask p.tasks n = some info →
      Event.executed info.task (runs info.task) ∈ (drainQueue runs p).2 := by
  obtain ⟨hkeys, hqnd, hlive⟩ := h
  exact drainQueueGo_drains runs p.queue p.tasks hqnd hlive

theorem drainQueue_inv (runs : TaskId → RunOutcome) (p : PoolState) (h : Inv p) :
    Inv (drainQueue runs p).1 := by
  have hq := (drainQueue_drains runs p h).1
  refine ⟨?_, ?_, ?_⟩
  · rw [drainQueue_keys]
    exact h.1
  · rw [hq]
    exact List.nodup_nil
  · intro n hn
    rw [hq] at hn
    cases hn

theorem drainQueue_no_released (runs : TaskId → RunOutcome) (p : PoolState) :
    ∀ e ∈ (drainQueue runs p).2, e.isReleased = false :=
  fun e he => drainQueueGo_no_released runs p.queue p.tasks e he

theorem drainQueue_runs_indep (runs1 runs2 : TaskId → RunOutcome) (p : PoolState) :
    (drainQueue runs1 p).1 = (drainQueue runs2 p).1 := by
  obtain ⟨h1, h2⟩ := drainQueueGo_runs_indep runs1 runs2 p.queue p.tasks
  unfold drainQueue
  dsimp only
  rw [h1, h2]

theorem Stop_already (runs : TaskId → RunOutcome) (p : PoolState)
    (hs : p.stopping = true) : Stop runs p = (p, []) := by
  unfold Stop
  simp [hs]

theorem Stop_eq_first (runs : TaskId → RunOutcome) (p : PoolState)
    (hs : p.stopping = false) :
    Stop runs p =
      ({ (drainQueue runs { p with stopping := true }).1 with liveWorkers := 0 },
       (drainQueue runs { p with stopping := true }).2) := by
  unfold Stop
  simp [hs]

theorem Inv_stopping_set (p : PoolState) (h : Inv p) :
    Inv { p with stopping := true } := h

theorem Stop_stopping (runs : TaskId → RunOutcome) (p : PoolState) :
    (Stop runs p).1.stopping = true := by
  cases hs : p.stopping with
  | true => rw [Stop_already runs p hs]; exact hs
  | false =>
    rw [Stop_eq_first runs p hs]
    dsimp only
    rw [drainQueue_stopping]

theorem Stop_drained (runs : TaskId → RunOutcome) (p : PoolState) (h : Inv p)
    (hs : p.stopping = false) :
    (Stop runs p).1.queue = [] ∧ (Stop runs p).1.liveWorkers = 0 ∧
    (Stop runs p).1.tasks.map Prod.fst = p.tasks.map Prod.fst ∧
    Inv (Stop runs p).1 := by
  rw [Stop_eq_first runs p hs]
  dsimp only
  have hinv : Inv ({ p with stopping := true } : PoolState) := Inv_stopping_set p h
  refine ⟨(drainQueue_drains runs _ hinv).1, rfl, ?_, ?_⟩
  · rw [drainQueue_keys]
  · exact drainQueue_inv runs _ hinv

theorem Stop_executes (runs : TaskId → RunOutcome) (p : PoolState) (h : Inv p)
    (hs : p.stopping = false) :
    ∀ n info, n ∈ p.queue → lookupTask p.tasks n = some info →
      Event.executed info.task (runs info.task) ∈ (Stop runs p).2 := by
  rw [Stop_eq_first runs p hs]
  dsimp only
  exact (drainQueue_drains runs _ (Inv_stopping_set p h)).2

theorem Stop_no_released (runs : TaskId → RunOutcome) (p : PoolState) :
    ∀ e ∈ (Stop runs p).2, e.isReleased = false := by
  cases hs : p.stopping with
  | true => rw [Stop_already runs p hs]; intro e he; cases he
  | false =>
    rw [Stop_eq_first runs p hs]
    exact drainQueue_no_released runs _

theorem Stop_runs_indep (runs1 runs2 : TaskId → RunOutcome) (p : PoolState) :
    (Stop runs1 p).1 = (Stop runs2 p).1 := by
  cases hs : p.stopping with
  | true => rw [Stop_already runs1 p hs, Stop_already runs2 p hs]
  | false =>
    rw [Stop_eq_first runs1 p hs, Stop_eq_first runs2 p hs]
    dsimp only
    rw [drainQueue_runs_indep runs1 runs2]

theorem Inv_Stop (runs : TaskId → RunOutcome) (p : PoolState) (h : Inv p) :
    Inv (Stop runs p).1 := by
  cases hs : p.stopping with
  | true => rw [Stop_already runs p hs]; exact h
  | false => exact (Stop_drained runs p h hs).2.2.2

theorem Destroy_tasks_nil (runs : TaskId → RunOutcome) (p : PoolState) :
    (Destroy runs p).1.tasks = [] := rfl

theorem Destroy_eq_fresh (runs : TaskId → RunOutcome) (p : PoolState)
    (hs : p.stopping = false) :
    Destroy runs p =
      ({ (Stop runs p).1 with tasks := [] },
       (Stop runs p).2 ++ (Stop runs p).1.tasks.map (fun kv => Event.released kv.2.task)) := by
  unfold Destroy
  simp [hs]

theorem Destroy_eq_stopped (runs : TaskId → RunOutcome) (p : PoolState)
    (hs : p.stopping = true) :
    Destroy runs p =
      ({ p with tasks := [] }, p.tasks.map (fun kv => Event.released kv.2.task)) := by
  unfold Destroy
  simp [hs]

theorem Destroy_executes (runs : TaskId → RunOutcome) (p : PoolState) (h : Inv p)
    (hs : p.stopping = false) :
    ∀ n info, n ∈ p.queue → lookupTask p.tasks n = some info →
      Event.executed info.task (runs info.task) ∈ (Destroy runs p).2 := by
  rw [Destroy_eq_fresh runs p hs]
  dsimp only
  intro n info hn hl
  exact List.mem_append_left _ (Stop_executes runs p h hs n info hn hl)

theorem Destroy_released_count (runs : TaskId → RunOutcome) (p : PoolState)
    (h : Inv p) :
    (Destroy runs p).2.countP Event.isReleased = p.tasks.length := by
  cases hs : p.stopping with
  | true =>
    rw [Destroy_eq_stopped runs p hs]
    dsimp only
    rw [List.countP_eq_length.mpr, List.length_map]
    intro e he
    rw [List.mem_map] at he
    obtain ⟨kv, _, he⟩ := he
    subst he
    rfl
  | false =>
    rw [Destroy_eq_fresh runs p hs]
    dsimp only
    rw [List.countP_append]
    have h1 : (Stop runs p).2.countP Event.isReleased = 0 := by
      rw [List.countP_eq_zero]
      intro e he
      simp [Stop_no_released runs p e he]
    have h2 : ((Stop runs p).1.tasks.map
        (fun kv => Event.released kv.2.task)).countP Event.isReleased
        = (Stop runs p).1.tasks.length := by
      rw [List.countP_eq_length.mpr, List.length_map]
      intro e he
      rw [List.mem_map] at he
      obtain ⟨kv, _, he⟩ := he
      subst he
      rfl
    rw [h1, h2, Nat.zero_add]
    have := (Stop_drained runs p h hs).2.2.1
    calc (Stop runs p).1.tasks.length
        = ((Stop runs p).1.tasks.map Prod.fst).length := (List.length_map _ _).symm
      _ = (p.tasks.map Prod.fst).length := by rw [this]
      _ = p.tasks.length := List.length_map _ _

end ThreadPool

/-! ### The claims -/

namespace ThreadPool

/-- C1 counterexample: destroying a pool that still holds the queued,
never-waited task "a" (payload 7) emits an execution event for payload 7:
the destructor's implicit `Stop` drains the queue by *running* the queued
task, so "tasks still queued at destruction are not executed; they are
discarded" is false on the code. -/
theorem C1_queued_task_runs_at_destroy :
    Event.executed 7 RunOutcome.ok ∈
      (Destroy (fun _ => RunOutcome.ok)
        { stopping := false, queue := ["a"],
          tasks := [("a", TaskInfo.mkNew 7)], liveWorkers := 1 }).2 := by
  decide

/-- C1 (amended): destroying a pool with tasks still queued and never
waited on completes without fault, but the queued tasks are *executed*
(the implicit `Stop` drains the queue by running them), and every payload
still registered afterwards is released exactly once: the registry ends
empty, one release event per registered record — no leak. -/
theorem C1_destroy_drains_then_releases (runs : TaskId → RunOutcome)
    (p : PoolState) (h : Inv p) (hs : p.stopping = false) :
    (Destroy runs p).1.tasks = [] ∧
    (∀ n info, n ∈ p.queue → lookupTask p.tasks n = some info →
      Event.executed info.task (runs info.task) ∈ (Destroy runs p).2) ∧
    (Destroy runs p).2.countP Event.isReleased = p.tasks.length :=
  ⟨Destroy_tasks_nil runs p, Destroy_executes runs p h hs,
   Destroy_released_count runs p h⟩

/-- Witness for C1, at the one-queued-task pool. -/
theorem C1_destroy_witness :
    (Destroy (fun _ => RunOutcome.ok)
      { stopping := false, queue := ["a"],
        tasks := [("a", TaskInfo.mkNew 7)], liveWorkers := 1 }).1.tasks = [] ∧
    (Destroy (fun _ => RunOutcome.ok)
      { stopping := false, queue := ["a"],
        tasks := [("a", TaskInfo.mkNew 7)], liveWorkers := 1 }).2.countP
      Event.isReleased = 1 := by
  have h := C1_destroy_drains_then_releases (fun _ => RunOutcome.ok)
    { stopping := false, queue := ["a"],
      tasks := [("a", TaskInfo.mkNew 7)], liveWorkers := 1 }
    (by decide) (by decide)
  exact ⟨h.1, h.2.2⟩

/-- C2: `WaitForTask name` fails with `unknownTaskName` iff `name` is not
currently registered; on a registered record it blocks until `finished`
is true (an unfinished record leaves the caller blocked); once finished,
the call reclaims: the record is erased, its payload released, and a
second `WaitForTask` on the same name fails with `unknownTaskName` —
exactly one successful reclaim per submitted task. -/
theorem C2_waitFor_reclaims_once (p : PoolState) (name : String)
    (hnd : (p.tasks.map Prod.fst).Nodup) :
    (((WaitForTask p name).2.1 = Except.error PoolError.unknownTaskName) ↔
      lookupTask p.tasks name = none) ∧
    (∀ info, lookupTask p.tasks name = some info → info.finished = true →
      (WaitForTask p name).2.1 = Except.ok WaitStatus.reclaimed ∧
      (WaitForTask p name).2.2 = [Event.released info.task] ∧
      lookupTask (WaitForTask p name).1.tasks name = none ∧
      (WaitForTask (WaitForTask p name).1 name).2.1
        = Except.error PoolError.unknownTaskName) ∧
    (∀ info, lookupTask p.tasks name = some info → info.finished = false →
      (WaitForTask p name).2.1 = Except.ok WaitStatus.blocked) := by
  have herased : ∀ info, lookupTask p.tasks name = some info → info.finished = true →
      lookupTask (WaitForTask p name).1.tasks name = none := by
    intro info hl hf
    rw [WaitForTask_reclaim p name info hl hf]
    dsimp only
    apply lookupTask_eraseTask_self
    rw [keys_updateTask]
    exact hnd
  refine ⟨?_, ?_, ?_⟩
  · cases hl : lookupTask p.tasks name with
    | none => rw [WaitForTask_unknown p name hl]; simp
    | some info =>
      cases hf : info.finished with
      | true => rw [WaitForTask_reclaim p name info hl hf]; simp
      | false => rw [WaitForTask_blocked p name info hl hf]; simp
  · intro info hl hf
    refine ⟨?_, ?_, herased info hl hf, ?_⟩
    · rw [WaitForTask_reclaim p name info hl hf]
    · rw [WaitForTask_reclaim p name info hl hf]
    · rw [WaitForTask_unknown _ name (herased info hl hf)]
  · intro info hl hf
    rw [WaitForTask_blocked p name info hl hf]

/-- Witness for C2: a finished record under "t" is reclaimed, the second
wait fails with the unknown-name error. -/
theorem C2_waitFor_witness :
    (WaitForTask
      { stopping := false, queue := [],
        tasks := [("t", { task := 5, started := true, finished := true, waited := false })],
        liveWorkers := 1 } "t").2.1 = Except.ok WaitStatus.reclaimed ∧
    (WaitForTask (WaitForTask
      { stopping := false, queue := [],
        tasks := [("t", { task := 5, started := true, finished := true, waited := false })],
        liveWorkers := 1 } "t").1 "t").2.1 = Except.error PoolError.unknownTaskName := by
  have h := (C2_waitFor_reclaims_once
    { stopping := false, queue := [],
      tasks := [("t", { task := 5, started := true, finished := true, waited := false })],
      liveWorkers := 1 } "t" (by decide)).2.1
    { task := 5, started := true, finished := true, waited := false }
    (by decide) rfl
  exact ⟨h.1, h.2.2.2⟩

/-- C3: a worker exits its loop exactly when the stopping flag is set and
the queue is empty at the moment it wakes; if an item is pending while
stopping is set, the worker instead dequeues and runs that item; and the
first `Stop` on a pool returns only once the queue is fully drained and
every worker has exited. -/
theorem C3_drain_before_exit (runs : TaskId → RunOutcome) (p : PoolState) :
    ((WorkerStep runs p).2.1 = WorkerView.exited ↔
      (p.stopping = true ∧ p.queue = [])) ∧
    (∀ name rest info, p.stopping = true → p.queue = name :: rest →
      lookupTask p.tasks name = some info →
      (WorkerStep runs p).2.1 = WorkerView.ran name info.task ∧
      (WorkerStep runs p).1.queue = rest) ∧
    (Inv p → p.stopping = false →
      (Stop runs p).1.queue = [] ∧ (Stop runs p).1.liveWorkers = 0) := by
  refine ⟨?_, ?_, ?_⟩
  · cases hq : p.queue with
    | nil =>
      cases hs : p.stopping with
      | true => rw [WorkerStep_exit runs p hq hs]; simp [hs]
      | false => rw [WorkerStep_idle runs p hq hs]; simp [hs]
    | cons name rest =>
      cases hl : lookupTask p.tasks name with
      | none => rw [WorkerStep_stuck_eq runs p name rest hq hl]; simp [hq]
      | some info => rw [WorkerStep_ran runs p name rest info hq hl]; simp [hq]
  · intro name rest info _ hq hl
    rw [WorkerStep_ran runs p name rest info hq hl]
    exact ⟨rfl, rfl⟩
  · intro h hs
    exact ⟨(Stop_drained runs p h hs).1, (Stop_drained runs p h hs).2.1⟩

/-- Witness for C3: with stopping set and "x" still queued the worker
runs "x" rather than exiting, and `Stop` on a fresh one-task pool drains
the queue and retires both workers. -/
theorem C3_drain_witness :
    ((WorkerStep (fun _ => RunOutcome.ok)
        { stopping := true, queue := ["x"],
          tasks := [("x", TaskInfo.mkNew 3)], liveWorkers := 2 }).2.1
      = WorkerView.ran "x" 3 ∧
     (WorkerStep (fun _ => RunOutcome.ok)
        { stopping := true, queue := ["x"],
          tasks := [("x", TaskInfo.mkNew 3)], liveWorkers := 2 }).1.queue = []) ∧
    ((Stop (fun _ => RunOutcome.ok)
        { stopping := false, queue := ["y"],
          tasks := [("y", TaskInfo.mkNew 4)], liveWorkers := 2 }).1.queue = [] ∧
     (Stop (fun _ => RunOutcome.ok)
        { stopping := false, queue := ["y"],
          tasks := [("y", TaskInfo.mkNew 4)], liveWorkers := 2 }).1.liveWorkers = 0) := by
  refine ⟨?_, ?_⟩
  · exact (C3_drain_before_exit (fun _ => RunOutcome.ok)
      { stopping := true, queue := ["x"],
        tasks := [("x", TaskInfo.mkNew 3)], liveWorkers := 2 }).2.1
      "x" [] (TaskInfo.mkNew 3) rfl rfl (by decide)
  · exact (C3_drain_before_exit (fun _ => RunOutcome.ok)
      { stopping := false, queue := ["y"],
        tasks := [("y", TaskInfo.mkNew 4)], liveWorkers := 2 }).2.2
      (by decide) rfl

/-- C4: whatever the outcome of running a dequeued task — including a
fault — the worker reports a normal `ran` step (it is not killed and goes
on to the next iteration) and marks the record finished, so a waiter on
that name is woken; the pool state after the step, and after a whole
`Stop`, is identical under any two outcome assignments, so a task fault
never escapes into the pool; and `SubmitTask` and `WaitForTask` never
execute a task at all. -/
theorem C4_fault_contained (runs runs2 : TaskId → RunOutcome) (p : PoolState)
    (name : String) (rest : List String) (info : TaskInfo)
    (hq : p.queue = name :: rest) (hl : lookupTask p.tasks name = some info) :
    (WorkerStep runs p).2.1 = WorkerView.ran name info.task ∧
    (lookupTask (WorkerStep runs p).1.tasks name).map TaskInfo.finished = some true ∧
    (WorkerStep runs p).1 = (WorkerStep runs2 p).1 ∧
    (Stop runs p).1 = (Stop runs2 p).1 ∧
    (∀ (q : PoolState) (nm : String) (task : Option TaskId) (t : TaskId)
      (o : RunOutcome), Event.executed t o ∉ (SubmitTask q nm task).2.2) ∧
    (∀ (q : PoolState) (nm : String) (t : TaskId) (o : RunOutcome),
      Event.executed t o ∉ (WaitForTask q nm).2.2) := by
  refine ⟨?_, ?_, ?_, Stop_runs_indep runs runs2 p, ?_, ?_⟩
  · rw [WorkerStep_ran runs p name rest info hq hl]
  · rw [WorkerStep_ran runs p name rest info hq hl]
    dsimp only
    rw [lookupTask_updateTask_self, lookupTask_updateTask_self, hl]
    rfl
  · rw [WorkerStep_ran runs p name rest info hq hl,
      WorkerStep_ran runs2 p name rest info hq hl]
  · intro q nm task t o
    cases task with
    | none => rw [SubmitTask_none]; simp
    | some tv =>
      cases hs2 : q.stopping with
      | true => rw [SubmitTask_stopping q nm tv hs2]; simp
      | false =>
        cases hl2 : lookupTask q.tasks nm with
        | some i2 => rw [SubmitTask_dup q nm tv hs2 (by rw [hl2]; rfl)]; simp
        | none => rw [SubmitTask_fresh q nm tv hs2 hl2]; simp
  · intro q nm t o
    cases hl2 : lookupTask q.tasks nm with
    | none => rw [WaitForTask_unknown q nm hl2]; simp
    | some i2 =>
      cases hf2 : i2.finished with
      | true => rw [WaitForTask_reclaim q nm i2 hl2 hf2]; simp
      | false => rw [WaitForTask_blocked q nm i2 hl2 hf2]; simp

/-- Witness for C4, with a run assignment that faults on every task:
the worker still reports a normal step on the queued task "x". -/
theorem C4_fault_witness :
    (WorkerStep (fun _ => RunOutcome.fault)
      { stopping := false, queue := ["x"],
        tasks := [("x", TaskInfo.mkNew 3)], liveWorkers := 2 }).2.1
      = WorkerView.ran "x" 3 ∧
    (WorkerStep (fun _ => RunOutcome.fault)
      { stopping := false, queue := ["x"],
        tasks := [("x", TaskInfo.mkNew 3)], liveWorkers := 2 }).1
      = (WorkerStep (fun _ => RunOutcome.ok)
      { stopping := false, queue := ["x"],
        tasks := [("x", TaskInfo.mkNew 3)], liveWorkers := 2 }).1 := by
  have h := C4_fault_contained (fun _ => RunOutcome.fault) (fun _ => RunOutcome.ok)
    { stopping := false, queue := ["x"],
      tasks := [("x", TaskInfo.mkNew 3)], liveWorkers := 2 }
    "x" [] (TaskInfo.mkNew 3) rfl (by decide)
  exact ⟨h.1, h.2.2.1⟩

/-- C5: on a non-stopping pool, submitting under a name that is still
registered fails with `duplicateTaskName`; the pool state is unchanged
and the event list is exactly one release of the rejected payload — it is
deleted before the error is thrown, never executed, and not released a
second time. -/
theorem C5_duplicate_released_not_run (p : PoolState) (name : String) (t : TaskId)
    (info : TaskInfo) (hs : p.stopping = false)
    (hl : lookupTask p.tasks name = some info) :
    SubmitTask p name (some t)
      = (p, Except.error PoolError.duplicateTaskName, [Event.released t]) :=
  SubmitTask_dup p name t hs (by rw [hl]; rfl)

/-- Witness for C5: resubmitting the live name "t" is rejected and the
new payload 9 is released. -/
theorem C5_duplicate_witness :
    SubmitTask
      { stopping := false, queue := ["t"],
        tasks := [("t", TaskInfo.mkNew 5)], liveWorkers := 1 } "t" (some 9)
      = ({ stopping := false, queue := ["t"],
           tasks := [("t", TaskInfo.mkNew 5)], liveWorkers := 1 },
         Except.error PoolError.duplicateTaskName, [Event.released 9]) :=
  C5_duplicate_released_not_run
    { stopping := false, queue := ["t"],
      tasks := [("t", TaskInfo.mkNew 5)], liveWorkers := 1 }
    "t" 9 (TaskInfo.mkNew 5) rfl (by decide)

/-- C6: submitting a non-null task to a stopping pool returns `ok` with
no error, leaves the registry and the queue (the whole pool state)
unchanged, emits no event: the payload is neither released (ownership
stays with the caller) nor ever executed. -/
theorem C6_submit_after_stop_noop (p : PoolState) (name : String) (t : TaskId)
    (hs : p.stopping = true) :
    SubmitTask p name (some t) = (p, Except.ok (), []) :=
  SubmitTask_stopping p name t hs

/-- Witness for C6 on a stopped pool. -/
theorem C6_submit_witness :
    SubmitTask
      { stopping := true, queue := [], tasks := [], liveWorkers := 0 } "z" (some 2)
      = ({ stopping := true, queue := [], tasks := [], liveWorkers := 0 },
         Except.ok (), []) :=
  C6_submit_after_stop_noop
    { stopping := true, queue := [], tasks := [], liveWorkers := 0 } "z" 2 rfl

/-- C7: construction fails with `invalidConfiguration` exactly when the
requested thread count is ≤ 0; otherwise it returns a pool with an empty
queue, an empty registry, and exactly `numThreads` live worker loops. -/
theorem C7_construct_threads (n : Int) :
    (construct n = Except.error PoolError.invalidConfiguration ↔ n ≤ 0) ∧
    (0 < n →
      construct n = Except.ok
        { stopping := false, queue := [], tasks := [], liveWorkers := n.toNat } ∧
      (n.toNat : Int) = n) := by
  constructor
  · unfold construct
    by_cases h : n ≤ 0 <;> simp [h]
  · intro hn
    have h : ¬n ≤ 0 := by omega
    unfold construct
    refine ⟨by simp [h], by omega⟩

/-- Witness for C7 at four threads. -/
theorem C7_construct_witness :
    construct 4 = Except.ok
      { stopping := false, queue := [], tasks := [], liveWorkers := 4 } :=
  ((C7_construct_threads 4).2 (by decide)).1

/-- C8: `Stop` on a pool whose stopping flag is already set returns at
once, changing no pool state, running nothing and raising no error; in
particular a second `Stop` right after a first one is such a no-op. -/
theorem C8_stop_idempotent (runs : TaskId → RunOutcome) (p : PoolState) :
    (p.stopping = true → Stop runs p = (p, [])) ∧
    Stop runs (Stop runs p).1 = ((Stop runs p).1, []) :=
  ⟨Stop_already runs p, Stop_already runs _ (Stop_stopping runs p)⟩

/-- Witness for C8: a second `Stop` after stopping a one-task pool is the
identity. -/
theorem C8_stop_witness :
    Stop (fun _ => RunOutcome.ok)
      { stopping := true, queue := [], tasks := [], liveWorkers := 0 }
      = ({ stopping := true, queue := [], tasks := [], liveWorkers := 0 }, []) :=
  (C8_stop_idempotent (fun _ => RunOutcome.ok)
    { stopping := true, queue := [], tasks := [], liveWorkers := 0 }).1 rfl

/-- C9: the structural invariant — registry keys distinct, queued names
distinct, every queued name registered with `finished = false` — holds
for a constructed pool and is preserved by `SubmitTask` (which registers
the record before enqueueing the name), `WaitForTask` (which erases a
record only once finished, which a queued name never is), `WorkerStep`
and `Stop`; and under it the worker loop's registry lookup for a dequeued
name always succeeds, so the `stuck` null-dereference path never runs. -/
theorem C9_queue_registered_invariant :
    (∀ (n : Int) (p : PoolState), construct n = .ok p → Inv p) ∧
    (∀ (p : PoolState) (name : String) (task : Option TaskId),
      Inv p → Inv (SubmitTask p name task).1) ∧
    (∀ (p : PoolState) (name : String), Inv p → Inv (WaitForTask p name).1) ∧
    (∀ (runs : TaskId → RunOutcome) (p : PoolState),
      Inv p → Inv (WorkerStep runs p).1) ∧
    (∀ (runs : TaskId → RunOutcome) (p : PoolState), Inv p → Inv (Stop runs p).1) ∧
    (∀ (runs : TaskId → RunOutcome) (p : PoolState), Inv p →
      (WorkerStep runs p).2.1 ≠ WorkerView.stuck) ∧
    (∀ (p : PoolState) (name : String) (rest : List String),
      Inv p → p.queue = name :: rest → (lookupTask p.tasks name).isSome) := by
  refine ⟨Inv_construct, Inv_SubmitTask, Inv_WaitForTask, Inv_WorkerStep, Inv_Stop,
    WorkerStep_not_stuck, ?_⟩
  intro p name rest h hq
  obtain ⟨_, _, hlive⟩ := h
  obtain ⟨info, hl, _⟩ := (queuedLiveB_true_iff p.tasks name).mp
    (hlive name (by rw [hq]; exact List.mem_cons_self _ _))
  rw [hl]
  rfl

/-- Witness for C9: submitting "b" to a pool with "a" live keeps the
invariant, and the worker lookup for the dequeued head succeeds. -/
theorem C9_invariant_witness :
    Inv (SubmitTask
      { stopping := false, queue := ["a"],
        tasks := [("a", TaskInfo.mkNew 1)], liveWorkers := 2 } "b" (some 2)).1 ∧
    (lookupTask
      ([("a", TaskInfo.mkNew 1)] : List (String × TaskInfo)) "a").isSome := by
  refine ⟨?_, ?_⟩
  · exact C9_queue_registered_invariant.2.1
      { stopping := false, queue := ["a"],
        tasks := [("a", TaskInfo.mkNew 1)], liveWorkers := 2 } "b" (some 2) (by decide)
  · exact C9_queue_registered_invariant.2.2.2.2.2.2
      { stopping := false, queue := ["a"],
        tasks := [("a", TaskInfo.mkNew 1)], liveWorkers := 2 } "a" []
      (by decide) rfl

/-- C10: submitting a null task throws `nullTask` before the stopping
flag is consulted, so even on a stopping pool a null submission is an
error, never the silent no-op, and the state is untouched. -/
theorem C10_null_task_checked_first (p : PoolState) (name : String)
    (hs : p.stopping = true) :
    SubmitTask p name none = (p, Except.error PoolError.nullTask, []) :=
  SubmitTask_none p name

/-- Witness for C10 on a stopping pool. -/
theorem C10_null_task_witness :
    SubmitTask
      { stopping := true, queue := [], tasks := [], liveWorkers := 0 } "n" none
      = ({ stopping := true, queue := [], tasks := [], liveWorkers := 0 },
         Except.error PoolError.nullTask, []) :=
  C10_null_task_checked_first
    { stopping := true, queue := [], tasks := [], liveWorkers := 0 } "n" rfl

end ThreadPool
